import Mathlib

/-
Verification of the Skelbumentations transform-composition and
temporal-selection engine.

The Python source is shallowly embedded:
  * a `DataRecord` is the dict of named numpy arrays threaded through every
    call (`keypoints : (T, V, C)`, `invalid : (T, V)`, `peturbation : (T, V)`,
    keeping the source's spelling of the third key);
  * arrays are nested lists, machine floats become `ℚ` (or `ℝ` where the
    source computes Euclidean norms);
  * `random.random()` draws are explicit parameters (one `ℚ` per draw), or
    an indexed stream `ℕ → ℚ` with a cursor where the number of draws
    matters;
  * child operations are functions `Bool → DataRecord → Option DataRecord`
    (the `Bool` is the `force_apply` keyword, `none` models a raised
    exception);
  * `assert`/`raise` become `Option`.
-/

set_option linter.unusedVariables false

namespace Skel

/-- The dict of arrays passed between all operations.  The third field keeps
the source's spelling (`peturbation`). -/
structure DataRecord (α : Type) where
  keypoints : List (List (List α))
  invalid : List (List Bool)
  peturbation : List (List Bool)
deriving DecidableEq, Repr

/-- A child operation: takes the `force_apply` flag and the record, returns
the new record (`none` models a raised exception). -/
abbrev Child (α : Type) := Bool → DataRecord α → Option (DataRecord α)

/-- Runs a list of child operations in order without `force_apply`
(`for t in transforms: data = t(**data)`). -/
def runChildren {α : Type} (children : List (Child α)) (rec : DataRecord α) :
    Option (DataRecord α) :=
  children.foldlM (fun d t => t false d) rec

/-! ### transform.py: `BaseTransform.__call__`

`random.random()` is the first operand of the `or`, so it is evaluated on
every call; the stream cursor therefore always advances by one. -/

/-- `BaseTransform.__call__`: `if (random.random() < self.p) or
self.always_apply or force_apply: return self.apply(**data) else: return data`.
`rng` is the ambient random stream, `k` the cursor; the returned cursor shows
how many draws were made. -/
def baseTransformCall {α : Type} (p : ℚ) (always : Bool)
    (eff : DataRecord α → Option (DataRecord α)) (rng : ℕ → ℚ) (k : ℕ)
    (force : Bool) (rec : DataRecord α) : Option (DataRecord α) × ℕ :=
  (if rng k < p ∨ always = true ∨ force = true then eff rec else some rec,
   k + 1)

/-! ### select.py: `BaseSelect.__call__` and the selection strategies -/

/-- Numpy fancy assignment `d[select_ids] = vals`: the writes happen
position by position, left to right. -/
def scatterList {α : Type} : List ℕ → List α → List α → List α
  | [], _, orig => orig
  | _ :: _, [], orig => orig
  | i :: is, v :: vs, orig => scatterList is vs (orig.set i v)

/-- Fancy indexing `d[select_ids]` along the time axis for every field of
the record. -/
def extract {α : Type} (ids : List ℕ) (rec : DataRecord α) : DataRecord α :=
  { keypoints := ids.map (fun i => rec.keypoints.getD i [])
    invalid := ids.map (fun i => rec.invalid.getD i [])
    peturbation := ids.map (fun i => rec.peturbation.getD i []) }

/-- Write every field of the reduced record back at indices `ids`
(`for key, d in data.items(): d[select_ids] = select_data[key]`). -/
def scatterRec {α : Type} (ids : List ℕ) (out rec : DataRecord α) :
    DataRecord α :=
  { keypoints := scatterList ids out.keypoints rec.keypoints
    invalid := scatterList ids out.invalid rec.invalid
    peturbation := scatterList ids out.peturbation rec.peturbation }

/-- The body of `BaseSelect.__call__` after the probability gate: compute the
selection, extract, run the child pipeline, scatter back. -/
def selectBody {α : Type} (getSel : DataRecord α → Option (List ℕ))
    (children : List (Child α)) (rec : DataRecord α) :
    Option (DataRecord α) :=
  (getSel rec).bind (fun ids =>
    (runChildren children (extract ids rec)).map (fun out =>
      scatterRec ids out rec))

/-- `BaseSelect.__call__`: `if not (force_apply or random.random() < self.p):
return data`, then the selection body. -/
def baseSelectCall {α : Type} (p : ℚ)
    (getSel : DataRecord α → Option (List ℕ)) (children : List (Child α))
    (force : Bool) (r : ℚ) (rec : DataRecord α) : Option (DataRecord α) :=
  if force = true ∨ r < p then selectBody getSel children rec else some rec

/-- `SelectFrames.get_selection`: `assert all(f in range(length) for f in
self.frames)`, then return the caller-supplied frame list. -/
def selectFramesSel {α : Type} (frames : List ℕ) (rec : DataRecord α) :
    Option (List ℕ) :=
  if frames.all (fun f => decide (f < rec.keypoints.length)) then some frames
  else none

/-! ### compose.py -/

/-- `Compose.check_args`: `assert data["invalid"].shape ==
data["keypoints"].shape[:-1]` and the same for `peturbation` (the record
always carries all three fields, modelling the state after the defaulting of
missing ones). -/
def checkArgs {α : Type} (rec : DataRecord α) : Option (DataRecord α) :=
  if rec.invalid.map List.length = rec.keypoints.map (fun fr => fr.length) ∧
      rec.peturbation.map List.length =
        rec.keypoints.map (fun fr => fr.length) then
    some rec
  else none

/-- `data["keypoints"][data["invalid"]] = 0.0`: zero the whole coordinate
vector of every `(t, v)` whose invalid flag is set. -/
def setInvalidToZero (kps : List (List (List ℚ))) (inv : List (List Bool)) :
    List (List (List ℚ)) :=
  List.zipWith
    (fun frK frI =>
      List.zipWith (fun jt b => if b then jt.map (fun _ => (0 : ℚ)) else jt)
        frK frI)
    kps inv

/-- `Compose.__call__`: check the arguments, run every child in order, then
optionally zero the invalid keypoints.  `p` is the probability stored by
`BaseCompose.__init__`; the call never reads it. -/
def composeCall (children : List (Child ℚ)) (p : ℚ) (set0 : Bool)
    (rec : DataRecord ℚ) : Option (DataRecord ℚ) :=
  (checkArgs rec).bind (fun d =>
    (runChildren children d).map (fun out =>
      if set0 then
        { out with keypoints := setInvalidToZero out.keypoints out.invalid }
      else out))

/-- `Sequential.__call__(self, **data)`: the signature has no `force_apply`
parameter, so a `force_apply=True` keyword is captured into `**data` and the
gate `if random.random() < self.p` never reads it; `force` is carried here
only to model such an invocation. -/
def sequentialCall {α : Type} (children : List (Child α)) (p : ℚ)
    (force : Bool) (r : ℚ) (rec : DataRecord α) : Option (DataRecord α) :=
  if r < p then runChildren children rec else some rec

/-- `NoOp.__call__`: returns the data unchanged. -/
def noOpCall {α : Type} (rec : DataRecord α) : Option (DataRecord α) :=
  some rec

/-- Modelled from the spec: `random_utils.choice(n, p=weights)` (the module
`random_utils` is not in the repository).  Samples one index from the
categorical distribution given by `ws` using the uniform draw `u`: the least
index whose cumulative weight exceeds `u`. -/
def pyChoice (ws : List ℚ) (u : ℚ) : ℕ :=
  match ws with
  | [] => 0
  | w :: rest => if u < w then 0 else pyChoice rest (u - w) + 1

/-- `OneOf.__call__`: `if self.transforms_ps and (force_apply or
random.random() < self.p)`, sample one child index and invoke that child with
`force_apply=True`. -/
def oneOfCall {α : Type} (children : List (Child α)) (ws : List ℚ) (p : ℚ)
    (force : Bool) (r u : ℚ) (rec : DataRecord α) : Option (DataRecord α) :=
  if ws ≠ [] ∧ (force = true ∨ r < p) then
    (children.getD (pyChoice ws u) (fun _ d => some d)) true rec
  else some rec

/-- `SomeOf.__call__`: on a successful gate, invoke the children at the
sampled index sequence `idxs` in draw order, each with `force_apply=True`.
Modelled from the spec: the sampler `random_utils.choice(..., size=n,
replace=...)` is not in the repository, so the drawn index sequence is taken
as a parameter. -/
def someOfCall {α : Type} (children : List (Child α)) (ws : List ℚ) (p : ℚ)
    (force : Bool) (r : ℚ) (idxs : List ℕ) (rec : DataRecord α) :
    Option (DataRecord α) :=
  if ws ≠ [] ∧ (force = true ∨ r < p) then
    idxs.foldlM (fun d i => (children.getD i (fun _ x => some x)) true d) rec
  else some rec

/-- `OneOrOther.__call__`: one draw against `p`; success invokes
`transforms[0]`, failure `transforms[-1]`, both with `force_apply=True`.  The
`force_apply` parameter of the signature is never read. -/
def oneOrOtherCall {α : Type} (transforms : List (Child α)) (p : ℚ) (r : ℚ)
    (rec : DataRecord α) : Option (DataRecord α) :=
  if r < p then (transforms.headD (fun _ d => some d)) true rec
  else (transforms.getLastD (fun _ d => some d)) true rec

/-- The weight normalization shared by `OneOf.__init__` and
`SomeOf.__init__`: `s = sum(transforms_ps); [t / s for t in transforms_ps]`.
Python raises `ZeroDivisionError` on `t / 0`, but an empty comprehension
evaluates no division at all. -/
def pyMapDiv (s : ℚ) : List ℚ → Option (List ℚ)
  | [] => some []
  | w :: rest =>
    if s = 0 then none else (pyMapDiv s rest).map (fun l => w / s :: l)

/-- `s = sum(transforms_ps); [t / s for t in transforms_ps]`. -/
def pyNormalize (ps : List ℚ) : Option (List ℚ) :=
  pyMapDiv ps.sum ps

/-- `OneOf.__init__` restricted to the weight handling: `ps` are the
children's probabilities. -/
def oneOfInit (ps : List ℚ) (p : ℚ) : Option (List ℚ × ℚ) :=
  (pyNormalize ps).map (fun nps => (nps, p))

/-- `SomeOf.__init__` restricted to the weight handling. -/
def someOfInit (ps : List ℚ) (n : ℕ) (replace : Bool) (p : ℚ) :
    Option (List ℚ × ℕ × Bool × ℚ) :=
  (pyNormalize ps).map (fun nps => (nps, n, replace, p))

/-! ### select.py: `SelectHighMovement.get_selection`

Coordinates are `ℝ` here because the source takes Euclidean norms.  The
window size `self.size` is pre-sampled at construction
(`random_utils.randint(min_num, max_num + 1)`, a one-time draw) and enters as
the parameter `s`. -/

/-- `np.linalg.norm` over the coordinate axis. -/
noncomputable def npNorm (v : List ℝ) : ℝ :=
  Real.sqrt ((v.map (fun x => x * x)).sum)

/-- Entry `(t, k)` of a `(T, V)`-shaped nested list. -/
def entryAt {α : Type} (dflt : α) (a : List (List α)) (t k : ℕ) : α :=
  (a.getD t []).getD k dflt

/-- `keypoints[:, self.part]` / `invalid[:, self.part]`; Python's
`if self.part:` treats an empty list like `None`. -/
def restrictPart {α : Type} (dflt : α) (part : Option (List ℕ))
    (a : List (List α)) : List (List α) :=
  match part with
  | none => a
  | some sel => if sel = [] then a else a.map (fun row => sel.map (fun j => row.getD j dflt))

/-- The per-gap movement scores: `movement = keypoints[1:] - keypoints[:-1]`,
norm over the coordinate axis, zeroed where either endpoint frame has the
joint invalid, then `np.mean(movement, axis=1)`. -/
noncomputable def movementScores (kps : List (List (List ℝ)))
    (inv : List (List Bool)) : List ℝ :=
  let numJoints := (kps.headD []).length
  (List.range (kps.length - 1)).map (fun f =>
    ((List.range numJoints).map (fun k =>
      if entryAt false inv f k = true ∨ entryAt false inv (f + 1) k = true
      then (0 : ℝ)
      else npNorm (List.zipWith (fun a b => a - b)
        (entryAt [] kps (f + 1) k) (entryAt [] kps f k)))).sum
    / (numJoints : ℝ))

/-- `np.sum(movement[i : i + size])` (numpy slices clamp at the end of the
array). -/
noncomputable def winSum (mov : List ℝ) (s i : ℕ) : ℝ :=
  ((mov.drop i).take s).sum

/-- The contiguous search loop: `max_sum = 0; max_index = 0;
for i in range(length - self.size): ... if sum > max_sum: ...`. -/
noncomputable def bestStart (mov : List ℝ) (s length : ℕ) : ℕ :=
  ((List.range (length - s)).foldl
    (fun acc i => if winSum mov s i > acc.1 then (winSum mov s i, i) else acc)
    ((0 : ℝ), 0)).2

/-- `SelectHighMovement.get_selection` in the contiguous case: restrict to
`part`, compute the per-gap scores, and return
`np.arange(max_index, max_index + size)`. -/
noncomputable def selectHighMovementIds (part : Option (List ℕ)) (s : ℕ)
    (kps : List (List (List ℝ))) (inv : List (List Bool)) : List ℕ :=
  let length := kps.length
  let kpsP := restrictPart [] part kps
  let invP := restrictPart false part inv
  let mov := movementScores kpsP invP
  List.range' (bestStart mov s length) s

/-! ### occlusion.py: `InterpolateOcclusions.apply`

Each joint `k` reads and writes only column `k` of `keypoints`/`invalid`
(spec section 5 records this disjointness), so the source's sequential
per-joint loop is the same as the simultaneous per-entry rebuild below. -/

/-- The ascending list of valid frame indices of joint `k`
(`np.arange(length)[valid]`). -/
def validIds (inv : List (List Bool)) (length k : ℕ) : List ℕ :=
  (List.range length).filter (fun t => !(entryAt false inv t k))

/-- `np.min(valid_ids)`. -/
def firstValid (inv : List (List Bool)) (length k : ℕ) : ℕ :=
  (validIds inv length k).headD 0

/-- `np.max(valid_ids)`. -/
def lastValid (inv : List (List Bool)) (length k : ℕ) : ℕ :=
  (validIds inv length k).getLastD 0

/-- `interpolate_map` at `(t, k)` combined with the fewer-than-two-valid
`continue`: the joint has at least two valid frames, frame `t` is invalid,
and `min_valid_id <= t < max_valid_id`. -/
def interpCond (inv : List (List Bool)) (length k t : ℕ) : Prop :=
  2 ≤ (validIds inv length k).length ∧ entryAt false inv t k = true ∧
    firstValid inv length k ≤ t ∧ t < lastValid inv length k

instance (inv : List (List Bool)) (length k t : ℕ) :
    Decidable (interpCond inv length k t) := by
  unfold interpCond; infer_instance

/-- The greatest valid frame index `≤ t` (the left knot of the piecewise
linear interpolant at `t`). -/
def prevValid (inv : List (List Bool)) (length k t : ℕ) : ℕ :=
  ((validIds inv length k).filter (fun u => decide (u ≤ t))).getLastD 0

/-- The least valid frame index `≥ t` (the right knot). -/
def nextValid (inv : List (List Bool)) (length k t : ℕ) : ℕ :=
  ((validIds inv length k).filter (fun u => decide (t ≤ u))).headD 0

/-- `scipy.interpolate.interp1d(valid_ids, valid_kps, axis=0)` evaluated at
the invalid frame `t`: linear interpolation between the two bracketing valid
samples, componentwise over the coordinate axis. -/
def interpVal (kps : List (List (List ℚ))) (inv : List (List Bool))
    (length k t : ℕ) : List ℚ :=
  let a := prevValid inv length k t
  let b := nextValid inv length k t
  List.zipWith
    (fun x y => x + ((t : ℚ) - (a : ℚ)) / ((b : ℚ) - (a : ℚ)) * (y - x))
    (entryAt [] kps a k) (entryAt [] kps b k)

/-- `InterpolateOcclusions.apply`: for every joint with at least two valid
frames, replace the invalid entries between the first and last valid frame by
the interpolated coordinates and clear their invalid flags. -/
def interpolateApply (rec : DataRecord ℚ) : DataRecord ℚ :=
  let T := rec.keypoints.length
  let V := (rec.keypoints.headD []).length
  { rec with
    keypoints := (List.range T).map (fun t => (List.range V).map (fun k =>
      if interpCond rec.invalid T k t then interpVal rec.keypoints rec.invalid T k t
      else entryAt [] rec.keypoints t k))
    invalid := (List.range T).map (fun t => (List.range V).map (fun k =>
      if interpCond rec.invalid T k t then false
      else entryAt false rec.invalid t k)) }

/-! ### perturbation.py: `Jittering._clip_bb`

Two-dimensional points are pairs.  `temp_direction[temp_direction == 0.0] =
np.inf` followed by the division makes a zero direction component contribute
`0` (a finite value divided by infinity). -/

/-- Division with a zero divisor replaced by `np.inf`: any finite numerator
divided by infinity is `0`. -/
def pyDivInf (v d : ℚ) : ℚ :=
  if d = 0 then 0 else v / d

/-- `Jittering._clip_bb`: if the displaced point lies outside the bounding
box, back it up along the direction vector by the largest per-axis required
distance. -/
def clipBB (kp bl tr dir : ℚ × ℚ) : ℚ × ℚ :=
  if kp.1 < bl.1 ∨ kp.2 < bl.2 ∨ kp.1 > tr.1 ∨ kp.2 > tr.2 then
    let db1 := min (kp.1 - bl.1) 0
    let db2 := min (kp.2 - bl.2) 0
    let dt1 := max (kp.1 - tr.1) 0
    let dt2 := max (kp.2 - tr.2) 0
    let dm := max (max (pyDivInf db1 dir.1) (pyDivInf db2 dir.2))
      (max (pyDivInf dt1 dir.1) (pyDivInf dt2 dir.2))
    (kp.1 - dm * dir.1, kp.2 - dm * dir.2)
  else kp

/-! ## Helper lemmas for the bounding-box clip -/

lemma pyDivInf_lower_le (pz o bl d t : ℚ) (hp : pz = o + t * d)
    (ho : bl ≤ o) (ht : 0 ≤ t) : pyDivInf (min (pz - bl) 0) d ≤ t := by
  unfold pyDivInf
  rcases lt_trichotomy d 0 with hd | hd | hd
  · rw [if_neg hd.ne, div_le_iff_of_neg hd]
    have h1 : t * d ≤ pz - bl := by rw [hp]; linarith
    have h2 : t * d ≤ 0 := mul_nonpos_of_nonneg_of_nonpos ht hd.le
    exact le_min h1 h2
  · simp [hd, ht]
  · rw [if_neg hd.ne']
    have h0 : min (pz - bl) 0 ≤ 0 := min_le_right _ _
    have := div_nonpos_of_nonpos_of_nonneg h0 hd.le
    linarith

lemma pyDivInf_upper_le (pz o tr d t : ℚ) (hp : pz = o + t * d)
    (ho : o ≤ tr) (ht : 0 ≤ t) : pyDivInf (max (pz - tr) 0) d ≤ t := by
  unfold pyDivInf
  rcases lt_trichotomy d 0 with hd | hd | hd
  · rw [if_neg hd.ne]
    have h0 : (0 : ℚ) ≤ max (pz - tr) 0 := le_max_right _ _
    have := div_nonpos_of_nonneg_of_nonpos h0 hd.le
    linarith
  · simp [hd, ht]
  · rw [if_neg hd.ne', div_le_iff₀ hd]
    have h1 : pz - tr ≤ t * d := by rw [hp]; linarith
    have h2 : (0 : ℚ) ≤ t * d := mul_nonneg ht hd.le
    exact max_le h1 h2

lemma clip_le_upper (pz o tr d t dm : ℚ) (hp : pz = o + t * d)
    (ho : o ≤ tr) (hcand : pyDivInf (max (pz - tr) 0) d ≤ dm)
    (hdm : dm ≤ t) : pz - dm * d ≤ tr := by
  unfold pyDivInf at hcand
  rcases lt_trichotomy d 0 with hd | hd | hd
  · have hfact : (t - dm) * d ≤ 0 :=
      mul_nonpos_of_nonneg_of_nonpos (by linarith) hd.le
    rw [hp]; nlinarith [hfact]
  · rw [hp, hd]; ring_nf; linarith
  · rw [if_neg hd.ne', div_le_iff₀ hd] at hcand
    have h1 : pz - tr ≤ max (pz - tr) 0 := le_max_left _ _
    linarith

lemma clip_ge_lower (pz o bl d t dm : ℚ) (hp : pz = o + t * d)
    (ho : bl ≤ o) (hcand : pyDivInf (min (pz - bl) 0) d ≤ dm)
    (hdm : dm ≤ t) : bl ≤ pz - dm * d := by
  unfold pyDivInf at hcand
  rcases lt_trichotomy d 0 with hd | hd | hd
  · rw [if_neg hd.ne, div_le_iff_of_neg hd] at hcand
    have h1 : min (pz - bl) 0 ≤ pz - bl := min_le_left _ _
    linarith
  · rw [hp, hd]; ring_nf; linarith
  · have hfact : (0 : ℚ) ≤ (t - dm) * d := mul_nonneg (by linarith) hd.le
    rw [hp]; nlinarith [hfact]

/-! ## Claim theorems -/

/-- C3: a single `apply_transform` call runs the effect and returns its
result exactly when `force_apply` is true, or `always_apply` is true, or the
one uniform draw is below `p`; otherwise the record is returned unmodified.
The cursor component is `k + 1`: exactly one draw per invocation. -/
theorem transform_apply_contract {α : Type} (p : ℚ) (always : Bool)
    (eff : DataRecord α → Option (DataRecord α)) (rng : ℕ → ℚ) (k : ℕ)
    (force : Bool) (rec : DataRecord α) :
    baseTransformCall p always eff rng k force rec =
      (if force = true ∨ always = true ∨ rng k < p then eff rec
       else some rec, k + 1) := by
  unfold baseTransformCall
  by_cases h1 : rng k < p <;> by_cases h2 : always = true <;>
    by_cases h3 : force = true <;> simp [h1, h2, h3]

/-- C10: the root `Compose` call never consults the probability `p` stored at
construction: results for any two values of `p` agree, and the call always
checks the arguments, runs every child in order, and finalizes. -/
theorem compose_ignores_probability (children : List (Child ℚ))
    (set0 : Bool) (q₁ q₂ : ℚ) (rec : DataRecord ℚ) :
    composeCall children q₁ set0 rec = composeCall children q₂ set0 rec ∧
    composeCall children q₁ set0 rec =
      (checkArgs rec).bind (fun d => (runChildren children d).map (fun out =>
        if set0 then
          { out with keypoints := setInvalidToZero out.keypoints out.invalid }
        else out)) :=
  ⟨rfl, rfl⟩

/-- C7 counterexample: a weighted pick constructed with an empty child list
has weights summing to zero, yet construction succeeds — the empty list
comprehension evaluates no division. -/
theorem oneOf_zero_weight_empty_children_ok :
    oneOfInit ([] : List ℚ) 1 = some ([], 1) ∧ ([] : List ℚ).sum = 0 :=
  ⟨rfl, rfl⟩

/-- C7 amended: for a weighted-pick combinator with at least one child whose
probability weights sum to zero, construction signals an error (the division
by the zero sum raises inside `__init__`, never during a call); with zero
children no division happens and construction succeeds. -/
theorem weighted_init_zero_sum_errors (ps : List ℚ) (p : ℚ) (n : ℕ)
    (replace : Bool) (hne : ps ≠ []) (hsum : ps.sum = 0) :
    oneOfInit ps p = none ∧ someOfInit ps n replace p = none := by
  have hnorm : pyNormalize ps = none := by
    cases ps with
    | nil => exact absurd rfl hne
    | cons w rest => simp [pyNormalize, pyMapDiv, hsum]
  constructor <;> simp [oneOfInit, someOfInit, hnorm]

theorem weighted_init_zero_sum_errors_witness :
    ([(0 : ℚ), 0] ≠ [] ∧ ([(0 : ℚ), 0]).sum = 0) ∧
      (oneOfInit [(0 : ℚ), 0] 1 = none ∧
        someOfInit [(0 : ℚ), 0] 2 true 1 = none) :=
  ⟨⟨by simp, by norm_num⟩,
    weighted_init_zero_sum_errors [0, 0] 1 2 true (by simp) (by norm_num)⟩

/-- C9 counterexample: a `Sequential` with `p = 0` holding a child whose
effect rewrites the record, invoked with `force_apply=true` and draw `1/2`,
returns the input unchanged — its probability gate is not bypassed, because
`Sequential.__call__(self, **data)` never reads `force_apply`. -/
theorem sequential_ignores_force_apply :
    sequentialCall
        [fun (_ : Bool) (_ : DataRecord ℚ) =>
          some ⟨[[[1]]], [[true]], [[false]]⟩]
        0 true (1 / 2) ⟨[], [], []⟩ =
      some (⟨[], [], []⟩ : DataRecord ℚ) ∧
    (⟨[], [], []⟩ : DataRecord ℚ) ≠ ⟨[[[1]]], [[true]], [[false]]⟩ := by
  constructor
  · have : ¬((1 : ℚ) / 2 < 0) := by norm_num
    simp [sequentialCall, this]
  · decide

/-- C9 amended: `force_apply=true` bypasses the probability gate of
transforms (`BaseTransform`), selections (`BaseSelect`), and of the weighted
picks `OneOf` and `SomeOf` when they have children (their gates read
`force_apply or random.random() < self.p`): in each case the effect runs
regardless of `p` and of the draw.  `Sequential` alone ignores the flag: its
children are gated only by its own draw against `p`, so with a failed draw
nothing runs even under `force_apply=true`.  (`Compose` and `OneOrOther`
invoke their children on every call anyway.) -/
theorem force_apply_gate_bypass :
    (∀ (p : ℚ) (always : Bool)
      (eff : DataRecord ℚ → Option (DataRecord ℚ)) (rng : ℕ → ℚ) (k : ℕ)
      (rec : DataRecord ℚ),
        baseTransformCall p always eff rng k true rec = (eff rec, k + 1)) ∧
    (∀ (p r : ℚ) (getSel : DataRecord ℚ → Option (List ℕ))
      (children : List (Child ℚ)) (rec : DataRecord ℚ),
        baseSelectCall p getSel children true r rec =
          selectBody getSel children rec) ∧
    (∀ (p r u : ℚ) (ws : List ℚ) (children : List (Child ℚ))
      (rec : DataRecord ℚ), ws ≠ [] →
        oneOfCall children ws p true r u rec =
          (children.getD (pyChoice ws u) (fun _ d => some d)) true rec) ∧
    (∀ (p r : ℚ) (ws : List ℚ) (idxs : List ℕ)
      (children : List (Child ℚ)) (rec : DataRecord ℚ), ws ≠ [] →
        someOfCall children ws p true r idxs rec =
          idxs.foldlM
            (fun d i => (children.getD i (fun _ x => some x)) true d) rec) ∧
    (∀ (p r : ℚ) (children : List (Child ℚ)) (rec : DataRecord ℚ),
      ¬r < p → sequentialCall children p true r rec = some rec) := by
  refine ⟨fun p always eff rng k rec => ?_,
    fun p r getSel children rec => ?_,
    fun p r u ws children rec hws => ?_,
    fun p r ws idxs children rec hws => ?_,
    fun p r children rec h => ?_⟩
  · simp [baseTransformCall]
  · simp [baseSelectCall]
  · rw [oneOfCall, if_pos ⟨hws, Or.inl rfl⟩]
  · rw [someOfCall, if_pos ⟨hws, Or.inl rfl⟩]
  · simp [sequentialCall, h]

theorem force_apply_gate_bypass_witness :
    (([(1 : ℚ)] ≠ ([] : List ℚ)) ∧ ¬((1 : ℚ) / 2 < 0)) ∧
    (oneOfCall ([] : List (Child ℚ)) [(1 : ℚ)] 0 true (1 / 2) 0
        ⟨[], [], []⟩ =
      (([] : List (Child ℚ)).getD (pyChoice [(1 : ℚ)] 0)
        (fun _ d => some d)) true ⟨[], [], []⟩ ∧
      someOfCall ([] : List (Child ℚ)) [(1 : ℚ)] 0 true (1 / 2) []
          ⟨[], [], []⟩ =
        ([] : List ℕ).foldlM
          (fun d i => (([] : List (Child ℚ)).getD i (fun _ x => some x))
            true d) ⟨[], [], []⟩ ∧
      sequentialCall ([] : List (Child ℚ)) 0 true (1 / 2) ⟨[], [], []⟩ =
        some (⟨[], [], []⟩ : DataRecord ℚ)) :=
  ⟨⟨by simp, by norm_num⟩,
    force_apply_gate_bypass.2.2.1 0 (1 / 2) 0 [1] [] ⟨[], [], []⟩
      (by simp),
    force_apply_gate_bypass.2.2.2.1 0 (1 / 2) [1] [] [] ⟨[], [], []⟩
      (by simp),
    force_apply_gate_bypass.2.2.2.2 0 (1 / 2) [] ⟨[], [], []⟩
      (by norm_num)⟩

/-- C6: a valid target joint's position `o` lies inside the frame's bounding
box; whatever displaced point `kp = o + t * dir` (`t ≥ 0`) the jitter
produces, `_clip_bb` returns a point lying on or inside the box: a point
outside is pulled back along `dir` by the maximum per-axis required distance
(zero direction components contributing no constraint). -/
theorem clipBB_within_box (o bl tr dir kp : ℚ × ℚ) (t : ℚ)
    (hkp1 : kp.1 = o.1 + t * dir.1) (hkp2 : kp.2 = o.2 + t * dir.2)
    (h1 : bl.1 ≤ o.1) (h2 : o.1 ≤ tr.1) (h3 : bl.2 ≤ o.2) (h4 : o.2 ≤ tr.2)
    (ht : 0 ≤ t) :
    bl.1 ≤ (clipBB kp bl tr dir).1 ∧ (clipBB kp bl tr dir).1 ≤ tr.1 ∧
    bl.2 ≤ (clipBB kp bl tr dir).2 ∧ (clipBB kp bl tr dir).2 ≤ tr.2 := by
  unfold clipBB
  by_cases hout : kp.1 < bl.1 ∨ kp.2 < bl.2 ∨ kp.1 > tr.1 ∨ kp.2 > tr.2
  · rw [if_pos hout]
    set dm := max
      (max (pyDivInf (min (kp.1 - bl.1) 0) dir.1)
        (pyDivInf (min (kp.2 - bl.2) 0) dir.2))
      (max (pyDivInf (max (kp.1 - tr.1) 0) dir.1)
        (pyDivInf (max (kp.2 - tr.2) 0) dir.2)) with hdm
    have hdmt : dm ≤ t := by
      rw [hdm]
      refine max_le (max_le ?_ ?_) (max_le ?_ ?_)
      · exact pyDivInf_lower_le kp.1 o.1 bl.1 dir.1 t hkp1 h1 ht
      · exact pyDivInf_lower_le kp.2 o.2 bl.2 dir.2 t hkp2 h3 ht
      · exact pyDivInf_upper_le kp.1 o.1 tr.1 dir.1 t hkp1 h2 ht
      · exact pyDivInf_upper_le kp.2 o.2 tr.2 dir.2 t hkp2 h4 ht
    have c1 : pyDivInf (min (kp.1 - bl.1) 0) dir.1 ≤ dm := by
      rw [hdm]; exact le_max_of_le_left (le_max_left _ _)
    have c2 : pyDivInf (min (kp.2 - bl.2) 0) dir.2 ≤ dm := by
      rw [hdm]; exact le_max_of_le_left (le_max_right _ _)
    have c3 : pyDivInf (max (kp.1 - tr.1) 0) dir.1 ≤ dm := by
      rw [hdm]; exact le_max_of_le_right (le_max_left _ _)
    have c4 : pyDivInf (max (kp.2 - tr.2) 0) dir.2 ≤ dm := by
      rw [hdm]; exact le_max_of_le_right (le_max_right _ _)
    exact ⟨clip_ge_lower kp.1 o.1 bl.1 dir.1 t dm hkp1 h1 c1 hdmt,
      clip_le_upper kp.1 o.1 tr.1 dir.1 t dm hkp1 h2 c3 hdmt,
      clip_ge_lower kp.2 o.2 bl.2 dir.2 t dm hkp2 h3 c2 hdmt,
      clip_le_upper kp.2 o.2 tr.2 dir.2 t dm hkp2 h4 c4 hdmt⟩
  · rw [if_neg hout]
    push_neg at hout
    exact ⟨hout.1, hout.2.2.1, hout.2.1, hout.2.2.2⟩

theorem clipBB_within_box_witness :
    (((2 : ℚ), (0 : ℚ)).1 = (0 : ℚ) + 2 * (1 : ℚ) ∧
      ((2 : ℚ), (0 : ℚ)).2 = (0 : ℚ) + 2 * (0 : ℚ) ∧
      (0 : ℚ) ≤ 0 ∧ (0 : ℚ) ≤ 1 ∧ (0 : ℚ) ≤ 0 ∧ (0 : ℚ) ≤ 1 ∧
      (0 : ℚ) ≤ 2) ∧
    ((0 : ℚ) ≤ (clipBB (2, 0) (0, 0) (1, 1) (1, 0)).1 ∧
      (clipBB (2, 0) (0, 0) (1, 1) (1, 0)).1 ≤ 1 ∧
      (0 : ℚ) ≤ (clipBB (2, 0) (0, 0) (1, 1) (1, 0)).2 ∧
      (clipBB (2, 0) (0, 0) (1, 1) (1, 0)).2 ≤ 1) :=
  ⟨⟨by norm_num, by norm_num, by norm_num, by norm_num, by norm_num,
      by norm_num, by norm_num⟩,
    clipBB_within_box (0, 0) (0, 0) (1, 1) (1, 0) (2, 0) 2 (by norm_num)
      (by norm_num) (by norm_num) (by norm_num) (by norm_num) (by norm_num)
      (by norm_num)⟩

/-! ## Helper lemmas for the scatter-back -/

lemma getD_set_ne {α : Type} (l : List α) (i j : ℕ) (v d : α) (h : i ≠ j) :
    (l.set i v).getD j d = l.getD j d := by
  induction l generalizing i j with
  | nil => simp [List.set]
  | cons a l ih =>
    cases i with
    | zero =>
      cases j with
      | zero => exact absurd rfl h
      | succ j => simp [List.getD_cons_succ]
    | succ i =>
      cases j with
      | zero => simp
      | succ j =>
        simp only [List.set, List.getD_cons_succ]
        exact ih i j (fun e => h (by rw [e]))

lemma getD_set_self {α : Type} (l : List α) (i : ℕ) (v d : α)
    (h : i < l.length) : (l.set i v).getD i d = v := by
  induction l generalizing i with
  | nil => simp at h
  | cons a l ih =>
    cases i with
    | zero => simp
    | succ i =>
      simp only [List.set, List.getD_cons_succ]
      exact ih i (by simpa using h)

lemma scatterList_length {α : Type} :
    ∀ (ids : List ℕ) (vals orig : List α),
      (scatterList ids vals orig).length = orig.length
  | [], _, orig => by rw [scatterList]
  | _ :: _, [], orig => by rw [scatterList]
  | i :: is, v :: vs, orig => by
    rw [scatterList, scatterList_length is vs, List.length_set]

lemma scatterList_getD_not_mem {α : Type} :
    ∀ (ids : List ℕ) (vals orig : List α) (j : ℕ) (d : α), j ∉ ids →
      (scatterList ids vals orig).getD j d = orig.getD j d
  | [], _, orig, _, _, _ => by rw [scatterList]
  | _ :: _, [], orig, _, _, _ => by rw [scatterList]
  | i :: is, v :: vs, orig, j, d, h => by
    rw [scatterList,
      scatterList_getD_not_mem is vs _ j d (fun hm => h (List.mem_cons_of_mem _ hm))]
    exact getD_set_ne orig i j v d (fun e => h (e ▸ List.mem_cons_self i is))

lemma scatterList_getD_nodup {α : Type} :
    ∀ (ids : List ℕ) (vals orig : List α) (k : ℕ) (d : α), ids.Nodup →
      k < ids.length → k < vals.length → ids.getD k 0 < orig.length →
      (scatterList ids vals orig).getD (ids.getD k 0) d = vals.getD k d
  | [], _, _, k, _, _, hk, _, _ => absurd hk (by simp)
  | _ :: _, [], _, k, _, _, _, hv, _ => absurd hv (by simp)
  | i :: is, v :: vs, orig, 0, d, hnd, hk, hv, hb => by
    simp only [List.getD_cons_zero] at hb ⊢
    rw [scatterList, scatterList_getD_not_mem is vs _ i d (List.nodup_cons.mp hnd).1]
    exact getD_set_self orig i v d hb
  | i :: is, v :: vs, orig, k + 1, d, hnd, hk, hv, hb => by
    simp only [List.getD_cons_succ] at hb ⊢
    rw [scatterList]
    exact scatterList_getD_nodup is vs (orig.set i v) k d
      (List.nodup_cons.mp hnd).2 (by simpa using hk) (by simpa using hv)
      (by simpa using hb)

/-- C1: a fixed-frame-list selection over a duplicate-free in-range index
list `I`, invoked with `force_apply=true` and a child pipeline that succeeds
and preserves the number of selected frames, leaves `keypoints` and `invalid`
unchanged at every frame not in `I`, and at the `k`-th index of `I` stores
row `k` of the child pipeline's output on the extracted subsequence. -/
theorem selectFrames_scatter_back (frames : List ℕ)
    (children : List (Child ℚ)) (p r : ℚ) (rec out : DataRecord ℚ)
    (hnd : frames.Nodup)
    (hrK : ∀ f ∈ frames, f < rec.keypoints.length)
    (hTI : rec.invalid.length = rec.keypoints.length)
    (hrun : runChildren children (extract frames rec) = some out)
    (hlenK : out.keypoints.length = frames.length)
    (hlenI : out.invalid.length = frames.length) :
    ∃ res,
      baseSelectCall p (selectFramesSel frames) children true r rec =
        some res ∧
      (∀ j, j ∉ frames →
        res.keypoints.getD j [] = rec.keypoints.getD j [] ∧
        res.invalid.getD j [] = rec.invalid.getD j []) ∧
      (∀ k, k < frames.length →
        res.keypoints.getD (frames.getD k 0) [] = out.keypoints.getD k [] ∧
        res.invalid.getD (frames.getD k 0) [] = out.invalid.getD k []) := by
  have hall : frames.all (fun f => decide (f < rec.keypoints.length)) = true := by
    rw [List.all_eq_true]
    intro f hf
    simpa using hrK f hf
  have hcall : baseSelectCall p (selectFramesSel frames) children true r rec =
      some (scatterRec frames out rec) := by
    simp [baseSelectCall, selectBody, selectFramesSel, hall, hrun]
  refine ⟨scatterRec frames out rec, hcall, ?_, ?_⟩
  · intro j hj
    exact ⟨scatterList_getD_not_mem frames out.keypoints rec.keypoints j [] hj,
      scatterList_getD_not_mem frames out.invalid rec.invalid j [] hj⟩
  · intro k hk
    have hbK : frames.getD k 0 < rec.keypoints.length := by
      refine hrK _ ?_
      rw [List.getD_eq_getElem _ _ hk]
      exact List.getElem_mem hk
    have hbI : frames.getD k 0 < rec.invalid.length := by rw [hTI]; exact hbK
    exact ⟨scatterList_getD_nodup frames out.keypoints rec.keypoints k []
        hnd hk (hlenK ▸ hk) hbK,
      scatterList_getD_nodup frames out.invalid rec.invalid k []
        hnd hk (hlenI ▸ hk) hbI⟩

/-- A two-frame record used to instantiate the scatter-back theorem. -/
def w1rec : DataRecord ℚ :=
  ⟨[[[1]], [[2]]], [[false], [false]], [[false], [false]]⟩

/-- The subsequence of `w1rec` at frame list `[1]`. -/
def w1out : DataRecord ℚ := ⟨[[[2]]], [[false]], [[false]]⟩

theorem selectFrames_scatter_back_witness :
    (([1] : List ℕ).Nodup ∧
      (∀ f ∈ ([1] : List ℕ), f < w1rec.keypoints.length) ∧
      w1rec.invalid.length = w1rec.keypoints.length ∧
      runChildren ([] : List (Child ℚ)) (extract [1] w1rec) = some w1out ∧
      w1out.keypoints.length = ([1] : List ℕ).length ∧
      w1out.invalid.length = ([1] : List ℕ).length) ∧
    (∃ res,
      baseSelectCall 1 (selectFramesSel [1]) ([] : List (Child ℚ)) true 0
          w1rec = some res ∧
      (∀ j, j ∉ ([1] : List ℕ) →
        res.keypoints.getD j [] = w1rec.keypoints.getD j [] ∧
        res.invalid.getD j [] = w1rec.invalid.getD j []) ∧
      (∀ k, k < ([1] : List ℕ).length →
        res.keypoints.getD (([1] : List ℕ).getD k 0) [] =
          w1out.keypoints.getD k [] ∧
        res.invalid.getD (([1] : List ℕ).getD k 0) [] =
          w1out.invalid.getD k [])) :=
  ⟨⟨by decide, by decide, by decide, rfl, by decide, by decide⟩,
    selectFrames_scatter_back [1] [] 1 0 w1rec w1out (by decide) (by decide)
      (by decide) rfl (by decide) (by decide)⟩

/-! ## Helper lemmas for indexing `zipWith` and `map` -/

lemma getD_zipWith {α β γ : Type} (f : α → β → γ) (l₁ : List α)
    (l₂ : List β) (i : ℕ) (d₁ : α) (d₂ : β) (d₃ : γ) (h₁ : i < l₁.length)
    (h₂ : i < l₂.length) :
    (List.zipWith f l₁ l₂).getD i d₃ = f (l₁.getD i d₁) (l₂.getD i d₂) := by
  rw [List.getD_eq_getElem _ _ (by rw [List.length_zipWith]; omega),
    List.getD_eq_getElem _ _ h₁, List.getD_eq_getElem _ _ h₂,
    List.getElem_zipWith]

lemma getD_map_bounded {α β : Type} (f : α → β) (l : List α) (i : ℕ)
    (d₁ : α) (d₂ : β) (h : i < l.length) :
    (l.map f).getD i d₂ = f (l.getD i d₁) := by
  rw [List.getD_eq_getElem _ _ (by rw [List.length_map]; omega),
    List.getD_eq_getElem _ _ h, List.getElem_map]

/-- C4: the root pipeline with `set_invalid_to_zero=true`, after running all
children, zeroes every keypoint coordinate whose `(t, v)` is flagged invalid
in the children's output, and leaves every other coordinate exactly as the
children produced it. -/
theorem compose_zeroes_invalid (children : List (Child ℚ)) (q : ℚ)
    (rec out : DataRecord ℚ)
    (hchk : checkArgs rec = some rec)
    (hrun : runChildren children rec = some out)
    (t v c : ℕ)
    (htK : t < out.keypoints.length) (htI : t < out.invalid.length)
    (hvK : v < (out.keypoints.getD t []).length)
    (hvI : v < (out.invalid.getD t []).length)
    (hc : c < ((out.keypoints.getD t []).getD v []).length) :
    ∃ res, composeCall children q true rec = some res ∧
      (entryAt false out.invalid t v = true →
        ((res.keypoints.getD t []).getD v []).getD c 0 = 0) ∧
      (entryAt false out.invalid t v = false →
        ((res.keypoints.getD t []).getD v []).getD c 0 =
          ((out.keypoints.getD t []).getD v []).getD c 0) := by
  have hcall : composeCall children q true rec =
      some { out with
        keypoints := setInvalidToZero out.keypoints out.invalid } := by
    simp [composeCall, hchk, hrun]
  refine ⟨_, hcall, ?_, ?_⟩ <;> intro hflag <;>
    rw [setInvalidToZero, getD_zipWith _ _ _ t [] [] [] htK htI,
      getD_zipWith _ _ _ v [] false [] hvK hvI] <;>
    rw [entryAt] at hflag <;> rw [hflag]
  · rw [if_pos rfl]
    exact getD_map_bounded (fun _ => (0 : ℚ))
      ((out.keypoints.getD t []).getD v []) c 0 0 hc
  · rw [if_neg Bool.false_ne_true]

theorem compose_zeroes_invalid_witness :
    (checkArgs (⟨[[[5], [6]]], [[true, false]], [[false, false]]⟩ :
        DataRecord ℚ) =
      some ⟨[[[5], [6]]], [[true, false]], [[false, false]]⟩ ∧
      runChildren ([] : List (Child ℚ))
          ⟨[[[5], [6]]], [[true, false]], [[false, false]]⟩ =
        some ⟨[[[5], [6]]], [[true, false]], [[false, false]]⟩) ∧
    (∃ res, composeCall ([] : List (Child ℚ)) (1 / 2) true
        ⟨[[[5], [6]]], [[true, false]], [[false, false]]⟩ = some res ∧
      (entryAt false [[true, false]] 0 0 = true →
        ((res.keypoints.getD 0 []).getD 0 []).getD 0 0 = 0) ∧
      (entryAt false [[true, false]] 0 0 = false →
        ((res.keypoints.getD 0 []).getD 0 []).getD 0 0 =
          (([[[(5 : ℚ)], [6]]].getD 0 []).getD 0 []).getD 0 0)) :=
  ⟨⟨by decide, rfl⟩,
    compose_zeroes_invalid [] (1 / 2)
      ⟨[[[5], [6]]], [[true, false]], [[false, false]]⟩
      ⟨[[[5], [6]]], [[true, false]], [[false, false]]⟩
      (by decide) rfl 0 0 0 (by decide) (by decide) (by decide) (by decide)
      (by decide)⟩

/-! ## Helper lemmas for the interpolation transform -/

lemma getD_range_map {β : Type} (g : ℕ → β) (n i : ℕ) (d : β) (h : i < n) :
    ((List.range n).map g).getD i d = g i := by
  rw [getD_map_bounded g (List.range n) i 0 d (by simpa using h)]
  congr 1
  rw [List.getD_eq_getElem _ _ (by simpa using h), List.getElem_range]

lemma interpolateApply_kp_entry (rec : DataRecord ℚ) (t k : ℕ)
    (ht : t < rec.keypoints.length)
    (hk : k < (rec.keypoints.headD []).length) :
    entryAt [] (interpolateApply rec).keypoints t k =
      if interpCond rec.invalid rec.keypoints.length k t then
        interpVal rec.keypoints rec.invalid rec.keypoints.length k t
      else entryAt [] rec.keypoints t k := by
  show (((List.range rec.keypoints.length).map _).getD t []).getD k _ = _
  rw [getD_range_map _ _ t [] ht, getD_range_map _ _ k [] hk]

lemma interpolateApply_inv_entry (rec : DataRecord ℚ) (t k : ℕ)
    (ht : t < rec.keypoints.length)
    (hk : k < (rec.keypoints.headD []).length) :
    entryAt false (interpolateApply rec).invalid t k =
      if interpCond rec.invalid rec.keypoints.length k t then false
      else entryAt false rec.invalid t k := by
  show (((List.range rec.keypoints.length).map _).getD t []).getD k _ = _
  rw [getD_range_map _ _ t [] ht, getD_range_map _ _ k false hk]

lemma mem_validIds (inv : List (List Bool)) (T k x : ℕ) :
    x ∈ validIds inv T k ↔ x < T ∧ entryAt false inv x k = false := by
  unfold validIds
  rw [List.mem_filter, List.mem_range, Bool.not_eq_true']

lemma validIds_sorted (inv : List (List Bool)) (T k : ℕ) :
    (validIds inv T k).Pairwise (· < ·) :=
  (List.pairwise_lt_range T).filter _

lemma headD_mem {α : Type} (l : List α) (d : α) (h : l ≠ []) :
    l.headD d ∈ l := by
  cases l with
  | nil => exact absurd rfl h
  | cons a as => simp

lemma getLastD_mem {α : Type} : ∀ (l : List α) (d : α), l ≠ [] →
    l.getLastD d ∈ l
  | [], d, h => absurd rfl h
  | [a], d, _ => by simp
  | a :: b :: bs, d, _ => by
    rw [List.getLastD_cons]
    exact List.mem_cons_of_mem a (getLastD_mem (b :: bs) a (by simp))

lemma getLastD_default_irrel {α : Type} : ∀ (l : List α) (d₁ d₂ : α),
    l ≠ [] → l.getLastD d₁ = l.getLastD d₂
  | [], _, _, h => absurd rfl h
  | [a], _, _, _ => by simp
  | a :: b :: bs, d₁, d₂, _ => by simp only [List.getLastD_cons]

lemma sorted_headD_le (l : List ℕ) (hs : l.Pairwise (· < ·)) (x : ℕ)
    (hx : x ∈ l) : l.headD 0 ≤ x := by
  cases l with
  | nil => simp at hx
  | cons a as =>
    rcases List.mem_cons.mp hx with rfl | h
    · simp
    · have := (List.pairwise_cons.mp hs).1 x h
      simp only [List.headD_cons]
      omega

lemma le_sorted_getLastD : ∀ (l : List ℕ), l.Pairwise (· < ·) →
    ∀ x ∈ l, x ≤ l.getLastD 0
  | [], _, x, hx => by simp at hx
  | [a], _, x, hx => by
    rcases List.mem_singleton.mp hx with rfl
    simp
  | a :: b :: bs, hs, x, hx => by
    rw [List.getLastD_cons,
      getLastD_default_irrel (b :: bs) a 0 (by simp)]
    rcases List.mem_cons.mp hx with rfl | h
    · have hmem : (b :: bs).getLastD 0 ∈ b :: bs :=
        getLastD_mem (b :: bs) 0 (by simp)
      have := (List.pairwise_cons.mp hs).1 _ hmem
      omega
    · exact le_sorted_getLastD (b :: bs) (List.pairwise_cons.mp hs).2 x h

/-- C5: per joint, `InterpolateOcclusions.apply` leaves a joint with fewer
than two valid frames completely untouched; otherwise exactly the frames that
are invalid and lie strictly between the joint's first and last valid frame
receive the linearly interpolated coordinates (between the bracketing valid
samples, which exist strictly on both sides) and are marked valid, while all
other frames — in particular those before the first or after the last valid
frame, which stay invalid — keep their coordinates and flags. -/
theorem interpolate_between_valid (rec : DataRecord ℚ) (k t : ℕ)
    (ht : t < rec.keypoints.length)
    (hk : k < (rec.keypoints.headD []).length) :
    ((validIds rec.invalid rec.keypoints.length k).length < 2 →
      entryAt [] (interpolateApply rec).keypoints t k =
        entryAt [] rec.keypoints t k ∧
      entryAt false (interpolateApply rec).invalid t k =
        entryAt false rec.invalid t k) ∧
    (2 ≤ (validIds rec.invalid rec.keypoints.length k).length →
      ((entryAt false rec.invalid t k = true ∧
          firstValid rec.invalid rec.keypoints.length k < t ∧
          t < lastValid rec.invalid rec.keypoints.length k) →
        entryAt [] (interpolateApply rec).keypoints t k =
          interpVal rec.keypoints rec.invalid rec.keypoints.length k t ∧
        entryAt false (interpolateApply rec).invalid t k = false ∧
        entryAt false rec.invalid
          (prevValid rec.invalid rec.keypoints.length k t) k = false ∧
        entryAt false rec.invalid
          (nextValid rec.invalid rec.keypoints.length k t) k = false ∧
        prevValid rec.invalid rec.keypoints.length k t < t ∧
        t < nextValid rec.invalid rec.keypoints.length k t) ∧
      (¬(entryAt false rec.invalid t k = true ∧
          firstValid rec.invalid rec.keypoints.length k < t ∧
          t < lastValid rec.invalid rec.keypoints.length k) →
        entryAt [] (interpolateApply rec).keypoints t k =
          entryAt [] rec.keypoints t k ∧
        entryAt false (interpolateApply rec).invalid t k =
          entryAt false rec.invalid t k) ∧
      ((t < firstValid rec.invalid rec.keypoints.length k ∨
          lastValid rec.invalid rec.keypoints.length k < t) →
        entryAt false rec.invalid t k = true ∧
        entryAt false (interpolateApply rec).invalid t k = true)) := by
  have eK := interpolateApply_kp_entry rec t k ht hk
  have eI := interpolateApply_inv_entry rec t k ht hk
  refine ⟨fun hlt2 => ?_, fun hcount => ⟨?_, ?_, ?_⟩⟩
  · have hnc : ¬interpCond rec.invalid rec.keypoints.length k t := by
      rintro ⟨h2, -, -, -⟩; omega
    rw [if_neg hnc] at eK eI
    exact ⟨eK, eI⟩
  all_goals
    have hne : validIds rec.invalid rec.keypoints.length k ≠ [] := by
      intro h
      rw [h] at hcount
      simp at hcount
  all_goals
    have hfv : entryAt false rec.invalid
        (firstValid rec.invalid rec.keypoints.length k) k = false :=
      ((mem_validIds _ _ _ _).mp (headD_mem _ 0 hne)).2
  · rintro ⟨hinv, hft, htl⟩
    have hcond : interpCond rec.invalid rec.keypoints.length k t :=
      ⟨hcount, hinv, le_of_lt hft, htl⟩
    rw [if_pos hcond] at eK eI
    have hsorted := validIds_sorted rec.invalid rec.keypoints.length k
    have hlast_mem := getLastD_mem (validIds rec.invalid rec.keypoints.length k) 0 hne
    have hfirst_mem := headD_mem (validIds rec.invalid rec.keypoints.length k) 0 hne
    have hPne : (validIds rec.invalid rec.keypoints.length k).filter
        (fun u => decide (u ≤ t)) ≠ [] := by
      refine List.ne_nil_of_mem (a := firstValid rec.invalid rec.keypoints.length k) ?_
      rw [List.mem_filter]
      exact ⟨hfirst_mem, by simpa using le_of_lt hft⟩
    have hprev_mem := getLastD_mem _ 0 hPne
    rw [List.mem_filter] at hprev_mem
    have hpval : entryAt false rec.invalid
        (prevValid rec.invalid rec.keypoints.length k t) k = false :=
      ((mem_validIds _ _ _ _).mp hprev_mem.1).2
    have hple : prevValid rec.invalid rec.keypoints.length k t ≤ t := by
      have hd := of_decide_eq_true hprev_mem.2
      exact hd
    have hplt : prevValid rec.invalid rec.keypoints.length k t < t := by
      rcases lt_or_eq_of_le hple with h | h
      · exact h
      · rw [h] at hpval
        rw [hpval] at hinv
        cases hinv
    have hNne : (validIds rec.invalid rec.keypoints.length k).filter
        (fun u => decide (t ≤ u)) ≠ [] := by
      refine List.ne_nil_of_mem (a := lastValid rec.invalid rec.keypoints.length k) ?_
      rw [List.mem_filter]
      exact ⟨hlast_mem, by simpa using le_of_lt htl⟩
    have hnext_mem := headD_mem _ 0 hNne
    rw [List.mem_filter] at hnext_mem
    have hnval : entryAt false rec.invalid
        (nextValid rec.invalid rec.keypoints.length k t) k = false :=
      ((mem_validIds _ _ _ _).mp hnext_mem.1).2
    have hnge : t ≤ nextValid rec.invalid rec.keypoints.length k t := by
      have hd := of_decide_eq_true hnext_mem.2
      exact hd
    have hngt : t < nextValid rec.invalid rec.keypoints.length k t := by
      rcases lt_or_eq_of_le hnge with h | h
      · exact h
      · rw [← h] at hnval
        rw [hnval] at hinv
        cases hinv
    exact ⟨eK, eI, hpval, hnval, hplt, hngt⟩
  · intro hnc
    have hcond : ¬interpCond rec.invalid rec.keypoints.length k t := by
      rintro ⟨-, hinv, hfle, hlt⟩
      refine hnc ⟨hinv, ?_, hlt⟩
      rcases lt_or_eq_of_le hfle with h | h
      · exact h
      · rw [h] at hfv
        rw [hfv] at hinv
        cases hinv
    rw [if_neg hcond] at eK eI
    exact ⟨eK, eI⟩
  · intro hside
    have hsorted := validIds_sorted rec.invalid rec.keypoints.length k
    have hti : entryAt false rec.invalid t k = true := by
      cases hb : entryAt false rec.invalid t k with
      | true => rfl
      | false =>
        have hmem : t ∈ validIds rec.invalid rec.keypoints.length k :=
          (mem_validIds _ _ _ _).mpr ⟨ht, hb⟩
        have h1 := sorted_headD_le _ hsorted t hmem
        have h2 := le_sorted_getLastD _ hsorted t hmem
        unfold firstValid at hside
        unfold lastValid at hside
        omega
    have hcond : ¬interpCond rec.invalid rec.keypoints.length k t := by
      rintro ⟨-, -, hfle, hlt⟩
      omega
    rw [if_neg hcond] at eI
    exact ⟨hti, eI.trans hti⟩

/-- A three-frame one-joint record: valid at frames 0 and 2, occluded at
frame 1. -/
def w5rec : DataRecord ℚ :=
  ⟨[[[0]], [[5]], [[2]]], [[false], [true], [false]],
    [[false], [false], [false]]⟩

theorem interpolate_between_valid_witness :
    (1 < w5rec.keypoints.length ∧ 0 < (w5rec.keypoints.headD []).length ∧
      2 ≤ (validIds w5rec.invalid w5rec.keypoints.length 0).length ∧
      entryAt false w5rec.invalid 1 0 = true ∧
      firstValid w5rec.invalid w5rec.keypoints.length 0 < 1 ∧
      1 < lastValid w5rec.invalid w5rec.keypoints.length 0) ∧
    (entryAt [] (interpolateApply w5rec).keypoints 1 0 =
        interpVal w5rec.keypoints w5rec.invalid w5rec.keypoints.length 0 1 ∧
      entryAt false (interpolateApply w5rec).invalid 1 0 = false ∧
      entryAt false w5rec.invalid
        (prevValid w5rec.invalid w5rec.keypoints.length 0 1) 0 = false ∧
      entryAt false w5rec.invalid
        (nextValid w5rec.invalid w5rec.keypoints.length 0 1) 0 = false ∧
      prevValid w5rec.invalid w5rec.keypoints.length 0 1 < 1 ∧
      1 < nextValid w5rec.invalid w5rec.keypoints.length 0 1) :=
  ⟨⟨by decide, by decide, by decide, by decide, by decide, by decide⟩,
    ((interpolate_between_valid w5rec 0 1 (by decide) (by decide)).2
      (by decide)).1 ⟨by decide, by decide, by decide⟩⟩

/-! ## Helper lemmas for the highest-movement search -/

/-- The running maximum kept by the contiguous-search loop, as a function of
the number of iterations. -/
noncomputable def argmaxAux (w : ℕ → ℝ) (n : ℕ) : ℝ × ℕ :=
  (List.range n).foldl
    (fun acc i => if w i > acc.1 then (w i, i) else acc) ((0 : ℝ), 0)

lemma argmaxAux_spec (w : ℕ → ℝ) (hw : ∀ j, 0 ≤ w j) :
    ∀ (n : ℕ), 0 < n →
      (argmaxAux w n).2 < n ∧ (argmaxAux w n).1 = w (argmaxAux w n).2 ∧
      (∀ j, j < n → w j ≤ (argmaxAux w n).1) ∧
      (∀ j, j < (argmaxAux w n).2 → w j < (argmaxAux w n).1) := by
  intro n
  induction n with
  | zero => intro hn; exact absurd hn (lt_irrefl 0)
  | succ n ih =>
    intro hn
    rcases Nat.eq_zero_or_pos n with rfl | hpos
    · unfold argmaxAux
      have hr1 : List.range 1 = [0] := rfl
      rw [hr1]
      simp only [List.foldl_cons, List.foldl_nil]
      by_cases h : w 0 > 0
      · rw [if_pos h]
        refine ⟨Nat.lt_irrefl 0 |> fun _ => Nat.zero_lt_one, rfl, ?_, ?_⟩
        · intro j hj
          have hj0 : j = 0 := by omega
          rw [hj0]
        · intro j hj
          exact absurd hj (Nat.not_lt_zero j)
      · rw [if_neg h]
        push_neg at h
        have h0 : w 0 = 0 := le_antisymm h (hw 0)
        refine ⟨Nat.zero_lt_one, h0.symm, ?_, ?_⟩
        · intro j hj
          have hj0 : j = 0 := by omega
          rw [hj0, h0]
        · intro j hj
          exact absurd hj (Nat.not_lt_zero j)
    · have hstep : argmaxAux w (n + 1) =
          if w n > (argmaxAux w n).1 then (w n, n) else argmaxAux w n := by
        unfold argmaxAux
        rw [List.range_succ, List.foldl_append, List.foldl_cons,
          List.foldl_nil]
      obtain ⟨ih1, ih2, ih3, ih4⟩ := ih hpos
      by_cases h : w n > (argmaxAux w n).1
      · rw [hstep, if_pos h]
        refine ⟨Nat.lt_succ_self n, rfl, ?_, ?_⟩
        · intro j hj
          rcases Nat.lt_succ_iff_lt_or_eq.mp hj with hj' | rfl
          · exact le_of_lt (lt_of_le_of_lt (ih3 j hj') h)
          · exact le_refl _
        · intro j hj
          exact lt_of_le_of_lt (ih3 j hj) h
      · rw [hstep, if_neg h]
        push_neg at h
        refine ⟨lt_trans ih1 (Nat.lt_succ_self n), ih2, ?_, ih4⟩
        intro j hj
        rcases Nat.lt_succ_iff_lt_or_eq.mp hj with hj' | rfl
        · exact ih3 j hj'
        · exact h

lemma winSum_nonneg (mov : List ℝ) (h : ∀ x ∈ mov, 0 ≤ x) (s i : ℕ) :
    0 ≤ winSum mov s i :=
  List.sum_nonneg (fun x hx =>
    h x (List.drop_subset i mov (List.take_subset s _ hx)))

lemma movementScores_nonneg (kps : List (List (List ℝ)))
    (inv : List (List Bool)) : ∀ x ∈ movementScores kps inv, 0 ≤ x := by
  intro x hx
  unfold movementScores at hx
  simp only [List.mem_map] at hx
  obtain ⟨f, -, rfl⟩ := hx
  apply div_nonneg _ (Nat.cast_nonneg _)
  apply List.sum_nonneg
  intro y hy
  simp only [List.mem_map] at hy
  obtain ⟨k, -, rfl⟩ := hy
  split
  · exact le_refl 0
  · exact Real.sqrt_nonneg _

lemma movementScores_length (kps : List (List (List ℝ)))
    (inv : List (List Bool)) :
    (movementScores kps inv).length = kps.length - 1 := by
  unfold movementScores
  rw [List.length_map, List.length_range]

lemma restrictPart_length {α : Type} (d : α) (part : Option (List ℕ))
    (a : List (List α)) : (restrictPart d part a).length = a.length := by
  unfold restrictPart
  cases part with
  | none => rfl
  | some sel => by_cases h : sel = [] <;> simp [h]

lemma winSum_last_le (mov : List ℝ) (h : ∀ x ∈ mov, 0 ≤ x) (s i : ℕ)
    (hi : i < mov.length) (hlen : mov.length ≤ i + s) :
    winSum mov s (i + 1) ≤ winSum mov s i := by
  unfold winSum
  have hd : mov.drop i = mov[i] :: mov.drop (i + 1) :=
    List.drop_eq_getElem_cons hi
  rw [hd]
  cases s with
  | zero => simp
  | succ s' =>
    rw [List.take_succ_cons]
    have hsub : (mov.drop (i + 1)).length ≤ s' := by
      rw [List.length_drop]; omega
    rw [List.take_of_length_le hsub,
      List.take_of_length_le (le_trans hsub (Nat.le_succ s'))]
    have h0 : 0 ≤ mov[i] := h _ (List.getElem_mem hi)
    rw [List.sum_cons]
    linarith

/-- C2: the contiguous highest-movement selection with pre-sampled window
size `s ≤ T` scores each frame-to-frame gap (zeroed on invalid endpoints,
averaged over joints), and returns the contiguous window of `s` frames whose
windowed score sum is maximal over every start offset `0 .. T - s`
inclusive, the earliest such offset winning all ties (strictly greater sums
are required to displace it). -/
theorem high_movement_earliest_max_window (part : Option (List ℕ)) (s : ℕ)
    (kps : List (List (List ℝ))) (inv : List (List Bool))
    (hs : s ≤ kps.length) :
    ∃ i0, selectHighMovementIds part s kps inv = List.range' i0 s ∧
      i0 + s ≤ kps.length ∧
      (∀ j, j + s ≤ kps.length →
        winSum (movementScores (restrictPart [] part kps)
            (restrictPart false part inv)) s j ≤
          winSum (movementScores (restrictPart [] part kps)
            (restrictPart false part inv)) s i0) ∧
      (∀ j, j < i0 →
        winSum (movementScores (restrictPart [] part kps)
            (restrictPart false part inv)) s j <
          winSum (movementScores (restrictPart [] part kps)
            (restrictPart false part inv)) s i0) := by
  set mov := movementScores (restrictPart [] part kps)
    (restrictPart false part inv) with hmov
  have hnn : ∀ x ∈ mov, 0 ≤ x := movementScores_nonneg _ _
  have hmlen : mov.length = kps.length - 1 := by
    rw [hmov, movementScores_length, restrictPart_length]
  have hsel : selectHighMovementIds part s kps inv =
      List.range' (bestStart mov s kps.length) s := rfl
  have hbs : bestStart mov s kps.length =
      (argmaxAux (fun i => winSum mov s i) (kps.length - s)).2 := rfl
  rcases Nat.eq_zero_or_pos (kps.length - s) with hzero | hpos
  · have hi0 : bestStart mov s kps.length = 0 := by
      rw [hbs]
      unfold argmaxAux
      rw [hzero]
      rfl
    refine ⟨0, by rw [hsel, hi0], by omega, ?_, ?_⟩
    · intro j hj
      have : j = 0 := by omega
      rw [this]
    · intro j hj
      exact absurd hj (Nat.not_lt_zero j)
  · obtain ⟨h1, h2, h3, h4⟩ :=
      argmaxAux_spec (fun i => winSum mov s i)
        (fun j => winSum_nonneg mov hnn s j) (kps.length - s) hpos
    refine ⟨bestStart mov s kps.length, hsel, ?_, ?_, ?_⟩
    · rw [hbs]; omega
    · intro j hj
      by_cases hj2 : j < kps.length - s
      · have := h3 j hj2
        rw [h2] at this
        exact this
      · have hj3 : j = kps.length - s := by omega
        by_cases hs0 : s = 0
        · rw [hs0]
          unfold winSum
          simp
        · have hlast := winSum_last_le mov hnn s (kps.length - s - 1)
            (by omega) (by omega)
          have heq : kps.length - s - 1 + 1 = kps.length - s := by omega
          rw [heq] at hlast
          have hmid := h3 (kps.length - s - 1) (by omega)
          rw [h2] at hmid
          rw [hj3, hbs]
          exact le_trans hlast hmid
    · intro j hj
      rw [hbs] at hj
      have := h4 j hj
      rw [h2] at this
      rw [hbs]
      exact this

/-- A two-frame, one-joint, one-coordinate real record for instantiating the
highest-movement theorem. -/
def w2kps : List (List (List ℝ)) := [[[0]], [[0]]]

def w2inv : List (List Bool) := [[false], [false]]

theorem high_movement_earliest_max_window_witness :
    1 ≤ w2kps.length ∧
    (∃ i0, selectHighMovementIds none 1 w2kps w2inv = List.range' i0 1 ∧
      i0 + 1 ≤ w2kps.length ∧
      (∀ j, j + 1 ≤ w2kps.length →
        winSum (movementScores (restrictPart [] none w2kps)
            (restrictPart false none w2inv)) 1 j ≤
          winSum (movementScores (restrictPart [] none w2kps)
            (restrictPart false none w2inv)) 1 i0) ∧
      (∀ j, j < i0 →
        winSum (movementScores (restrictPart [] none w2kps)
            (restrictPart false none w2inv)) 1 j <
          winSum (movementScores (restrictPart [] none w2kps)
            (restrictPart false none w2inv)) 1 i0)) :=
  ⟨by decide,
    high_movement_earliest_max_window none 1 w2kps w2inv (by decide)⟩

/-! ## Shape preservation (claim C8)

The shape of `keypoints` is the nested length structure `(T, V, C)`; the
shape of `invalid` is `(T, V)`.  A child operation is shape preserving when
every successful call keeps both. -/

/-- The `(T, V, C)` length structure of a keypoints array. -/
def kshape (kps : List (List (List ℚ))) : List (List ℕ) :=
  kps.map (fun fr => fr.map List.length)

/-- The `(T, V)` length structure of a mask array. -/
def ishape (inv : List (List Bool)) : List ℕ :=
  inv.map List.length

/-- Every successful call keeps the `keypoints` and `invalid` shapes. -/
def ShapePres (f : DataRecord ℚ → Option (DataRecord ℚ)) : Prop :=
  ∀ r r', f r = some r' →
    kshape r'.keypoints = kshape r.keypoints ∧
    ishape r'.invalid = ishape r.invalid

lemma runChildren_shape (children : List (Child ℚ))
    (hch : ∀ c ∈ children, ∀ b, ShapePres (c b)) :
    ShapePres (runChildren children) := by
  induction children with
  | nil =>
    intro r r' h
    cases h
    exact ⟨rfl, rfl⟩
  | cons c cs ih =>
    intro r r' h
    rw [runChildren, List.foldlM_cons] at h
    cases hc : c false r with
    | none => rw [hc] at h; cases h
    | some m =>
      rw [hc] at h
      have h1 := hch c (List.mem_cons_self c cs) false r m hc
      have h2 := ih (fun d hd b => hch d (List.mem_cons_of_mem c hd) b) m r' h
      exact ⟨h2.1.trans h1.1, h2.2.trans h1.2⟩

lemma widths_of_kshape (a b : List (List (List ℚ)))
    (h : kshape a = kshape b) :
    a.map (fun fr => fr.length) = b.map (fun fr => fr.length) := by
  have hfun : (List.length ∘ fun fr : List (List ℚ) => fr.map List.length) =
      fun fr : List (List ℚ) => fr.length := by
    funext fr
    simp
  have ha : a.map (fun fr => fr.length) = (kshape a).map List.length := by
    unfold kshape
    rw [List.map_map, hfun]
  have hb : b.map (fun fr => fr.length) = (kshape b).map List.length := by
    unfold kshape
    rw [List.map_map, hfun]
  rw [ha, hb, h]

lemma zip_zero_row_lengths (frK : List (List ℚ)) (frI : List Bool)
    (h : frI.length = frK.length) :
    (List.zipWith (fun jt b => if b then jt.map (fun _ => (0 : ℚ)) else jt)
      frK frI).map List.length = frK.map List.length := by
  induction frK generalizing frI with
  | nil => simp
  | cons jt frK ih =>
    cases frI with
    | nil => simp at h
    | cons b frI =>
      simp only [List.zipWith_cons_cons, List.map_cons]
      have hhead : (if b = true then jt.map (fun _ => (0 : ℚ)) else jt).length
          = jt.length := by
        cases b <;> simp
      rw [hhead, ih frI (by simpa using h)]

lemma setInvalidToZero_kshape (kps : List (List (List ℚ)))
    (inv : List (List Bool))
    (h : inv.map List.length = kps.map (fun fr => fr.length)) :
    kshape (setInvalidToZero kps inv) = kshape kps := by
  unfold setInvalidToZero kshape
  induction kps generalizing inv with
  | nil => simp
  | cons frK kps ih =>
    cases inv with
    | nil => simp at h
    | cons frI inv =>
      simp only [List.map_cons, List.cons.injEq] at h
      simp only [List.zipWith_cons_cons, List.map_cons]
      rw [zip_zero_row_lengths frK frI h.1, ih inv h.2]

lemma set_oob {α : Type} : ∀ (l : List α) (i : ℕ) (v : α),
    l.length ≤ i → l.set i v = l
  | [], _, _, _ => rfl
  | a :: l, 0, v, h => by simp at h
  | a :: l, i + 1, v, h => by
    simp only [List.set]
    rw [set_oob l i v (by simpa using h)]

lemma set_self {α : Type} : ∀ (l : List α) (i : ℕ) (h : i < l.length),
    l.set i l[i] = l
  | a :: l, 0, _ => rfl
  | a :: l, i + 1, h => by
    simp only [List.set, List.getElem_cons_succ]
    rw [set_self l i (by simpa using h)]

lemma getD_map_any {α β : Type} (g : α → β) (l : List α) (j : ℕ) (d : α) :
    (l.map g).getD j (g d) = g (l.getD j d) := by
  induction l generalizing j with
  | nil => rfl
  | cons a l ih =>
    cases j with
    | zero => rfl
    | succ j => simp only [List.map_cons, List.getD_cons_succ]; exact ih j

lemma map_set_eq {α β : Type} (g : α → β) (l : List α) (i : ℕ) (v : α)
    (d : α) (hv : g v = g (l.getD i d)) : (l.set i v).map g = l.map g := by
  by_cases hb : i < l.length
  · rw [List.map_set]
    rw [List.getD_eq_getElem _ _ hb] at hv
    rw [hv, ← List.getElem_map (f := g) (h := by simpa using hb)]
    exact set_self (l.map g) i (by simpa using hb)
  · rw [set_oob l i v (by omega)]

lemma map_scatterList {α β : Type} (g : α → β) (d : α) :
    ∀ (ids : List ℕ) (vals orig : List α),
      (∀ k, k < ids.length → k < vals.length →
        g (vals.getD k d) = g (orig.getD (ids.getD k 0) d)) →
      (scatterList ids vals orig).map g = orig.map g
  | [], _, orig, _ => by rw [scatterList]
  | _ :: _, [], orig, _ => by rw [scatterList]
  | i :: is, v :: vs, orig, h => by
    rw [scatterList]
    have h0 : g v = g (orig.getD i d) := by
      have := h 0 (by simp) (by simp)
      simpa using this
    have hset : (orig.set i v).map g = orig.map g :=
      map_set_eq g orig i v d h0
    have htail : ∀ k, k < is.length → k < vs.length →
        g (vs.getD k d) = g ((orig.set i v).getD (is.getD k 0) d) := by
      intro k hk hv
      have hh := h (k + 1) (by simpa using hk) (by simpa using hv)
      simp only [List.getD_cons_succ] at hh
      rw [hh]
      have e1 := getD_map_any g (orig.set i v) (is.getD k 0) d
      have e2 := getD_map_any g orig (is.getD k 0) d
      rw [← e1, ← e2, hset]
    rw [map_scatterList g d is vs (orig.set i v) htail, hset]

lemma getD_child_shape (children : List (Child ℚ))
    (hch : ∀ c ∈ children, ∀ b, ShapePres (c b)) (i : ℕ) (b : Bool) :
    ShapePres ((children.getD i (fun _ d => some d)) b) := by
  by_cases hb : i < children.length
  · rw [List.getD_eq_getElem _ _ hb]
    exact hch _ (List.getElem_mem hb) b
  · rw [List.getD_eq_default _ _ (by omega)]
    intro r r' h
    cases h
    exact ⟨rfl, rfl⟩

lemma foldIdx_shape (children : List (Child ℚ))
    (hch : ∀ c ∈ children, ∀ b, ShapePres (c b)) :
    ∀ (idxs : List ℕ) (r r' : DataRecord ℚ),
      idxs.foldlM
        (fun d i => (children.getD i (fun _ x => some x)) true d) r =
        some r' →
      kshape r'.keypoints = kshape r.keypoints ∧
      ishape r'.invalid = ishape r.invalid
  | [], r, r', h => by
    cases h
    exact ⟨rfl, rfl⟩
  | i :: is, r, r', h => by
    rw [List.foldlM_cons] at h
    cases hc : (children.getD i (fun _ x => some x)) true r with
    | none => rw [hc] at h; cases h
    | some m =>
      rw [hc] at h
      have h1 := getD_child_shape children hch i true r m hc
      have h2 := foldIdx_shape children hch is m r' h
      exact ⟨h2.1.trans h1.1, h2.2.trans h1.2⟩

lemma selectBody_shape (getSel : DataRecord ℚ → Option (List ℕ))
    (children : List (Child ℚ))
    (hch : ∀ c ∈ children, ∀ b, ShapePres (c b)) :
    ShapePres (selectBody getSel children) := by
  intro r r' h
  unfold selectBody at h
  cases hg : getSel r with
  | none => rw [hg] at h; cases h
  | some ids =>
    rw [hg] at h
    have h2 : (runChildren children (extract ids r)).map
        (fun out => scatterRec ids out r) = some r' := h
    cases hrun : runChildren children (extract ids r) with
    | none => rw [hrun] at h2; cases h2
    | some out =>
      rw [hrun] at h2
      have h3 : some (scatterRec ids out r) = some r' := h2
      cases h3
      have hsh := runChildren_shape children hch (extract ids r) out hrun
      constructor
      · show kshape (scatterList ids out.keypoints r.keypoints) =
          kshape r.keypoints
        unfold kshape
        apply map_scatterList (fun fr => fr.map List.length) []
        intro k hk hv
        have e1 := getD_map_any
          (fun fr : List (List ℚ) => fr.map List.length) out.keypoints k []
        have e2 := getD_map_any
          (fun fr : List (List ℚ) => fr.map List.length)
          (extract ids r).keypoints k []
        have hmapeq : out.keypoints.map
            (fun fr : List (List ℚ) => fr.map List.length) =
            (extract ids r).keypoints.map
              (fun fr : List (List ℚ) => fr.map List.length) := hsh.1
        have e3 : (extract ids r).keypoints.getD k [] =
            r.keypoints.getD (ids.getD k 0) [] := by
          show (ids.map (fun i => r.keypoints.getD i [])).getD k [] = _
          exact getD_map_bounded (fun i => r.keypoints.getD i []) ids k 0 []
            hk
        rw [← e3, ← e1, ← e2, hmapeq]
      · show ishape (scatterList ids out.invalid r.invalid) =
          ishape r.invalid
        unfold ishape
        apply map_scatterList List.length []
        intro k hk hv
        have e1 := getD_map_any List.length out.invalid k []
        have e2 := getD_map_any List.length (extract ids r).invalid k []
        have hmapeq : out.invalid.map List.length =
            (extract ids r).invalid.map List.length := hsh.2
        have e3 : (extract ids r).invalid.getD k [] =
            r.invalid.getD (ids.getD k 0) [] := by
          show (ids.map (fun i => r.invalid.getD i [])).getD k [] = _
          exact getD_map_bounded (fun i => r.invalid.getD i []) ids k 0 [] hk
        rw [← e3, ← e1, ← e2, hmapeq]

lemma composeCall_shape (children : List (Child ℚ)) (q : ℚ) (set0 : Bool)
    (hch : ∀ c ∈ children, ∀ b, ShapePres (c b)) :
    ShapePres (composeCall children q set0) := by
  intro r r' h
  unfold composeCall checkArgs at h
  by_cases hc : r.invalid.map List.length =
      r.keypoints.map (fun fr => fr.length) ∧
      r.peturbation.map List.length = r.keypoints.map (fun fr => fr.length)
  · rw [if_pos hc] at h
    have h2 : (runChildren children r).map (fun out =>
        if set0 then
          { out with keypoints := setInvalidToZero out.keypoints out.invalid }
        else out) = some r' := h
    cases hrun : runChildren children r with
    | none => rw [hrun] at h2; cases h2
    | some out =>
      rw [hrun] at h2
      have hsh := runChildren_shape children hch r out hrun
      cases set0 with
      | false =>
        have h3 : some out = some r' := h2
        cases h3
        exact hsh
      | true =>
        have h3 : some { out with
            keypoints := setInvalidToZero out.keypoints out.invalid } =
          some r' := h2
        cases h3
        refine ⟨?_, hsh.2⟩
        show kshape (setInvalidToZero out.keypoints out.invalid) =
          kshape r.keypoints
        have hw : out.invalid.map List.length =
            out.keypoints.map (fun fr => fr.length) := by
          have hinv : out.invalid.map List.length =
              r.invalid.map List.length := hsh.2
          have hkw := widths_of_kshape _ _ hsh.1
          rw [hinv, hc.1, ← hkw]
        rw [setInvalidToZero_kshape out.keypoints out.invalid hw]
        exact hsh.1
  · rw [if_neg hc] at h
    cases h

lemma headD_child_shape (children : List (Child ℚ))
    (hch : ∀ c ∈ children, ∀ b, ShapePres (c b)) (b : Bool) :
    ShapePres ((children.headD (fun _ d => some d)) b) := by
  cases children with
  | nil =>
    intro r r' h
    cases h
    exact ⟨rfl, rfl⟩
  | cons c cs => exact hch c (List.mem_cons_self c cs) b

lemma getLastD_child_shape (children : List (Child ℚ))
    (hch : ∀ c ∈ children, ∀ b, ShapePres (c b)) (b : Bool) :
    ShapePres ((children.getLastD (fun _ d => some d)) b) := by
  cases hcl : children with
  | nil =>
    intro r r' h
    cases h
    exact ⟨rfl, rfl⟩
  | cons c cs =>
    have hmem : (c :: cs).getLastD (fun _ d => some d) ∈ c :: cs :=
      getLastD_mem (c :: cs) _ (by simp)
    exact hch _ (hcl ▸ hmem) b

/-- C8: every operation of the system preserves the shapes `(T, V, C)` of
`keypoints` and `(T, V)` of `invalid` on every successful call, provided its
leaf effect and children do (which all concrete operations of the repository
satisfy): the probability-gated transform call, the selection call with any
frame-selection strategy, the root `Compose`, `OneOf`, `SomeOf`,
`OneOrOther`, `Sequential`, and `NoOp`. -/
theorem operations_preserve_shape
    (eff : DataRecord ℚ → Option (DataRecord ℚ)) (heff : ShapePres eff)
    (children : List (Child ℚ))
    (hch : ∀ c ∈ children, ∀ b, ShapePres (c b))
    (getSel : DataRecord ℚ → Option (List ℕ)) (ws : List ℚ)
    (idxs : List ℕ) (p r u : ℚ) (always force : Bool) (rng : ℕ → ℚ)
    (k : ℕ) (set0 : Bool) :
    ShapePres
      (fun rec => (baseTransformCall p always eff rng k force rec).1) ∧
    ShapePres (baseSelectCall p getSel children force r) ∧
    ShapePres (composeCall children p set0) ∧
    ShapePres (oneOfCall children ws p force r u) ∧
    ShapePres (someOfCall children ws p force r idxs) ∧
    ShapePres (oneOrOtherCall children p r) ∧
    ShapePres (sequentialCall children p force r) ∧
    ShapePres (noOpCall : DataRecord ℚ → Option (DataRecord ℚ)) := by
  refine ⟨?_, ?_, composeCall_shape children p set0 hch, ?_, ?_, ?_, ?_, ?_⟩
  · intro rec r' h
    have h2 : (if rng k < p ∨ always = true ∨ force = true then eff rec
        else some rec) = some r' := h
    by_cases hcond : rng k < p ∨ always = true ∨ force = true
    · rw [if_pos hcond] at h2
      exact heff rec r' h2
    · rw [if_neg hcond] at h2
      cases h2
      exact ⟨rfl, rfl⟩
  · intro rec r' h
    unfold baseSelectCall at h
    by_cases hcond : force = true ∨ r < p
    · rw [if_pos hcond] at h
      exact selectBody_shape getSel children hch rec r' h
    · rw [if_neg hcond] at h
      cases h
      exact ⟨rfl, rfl⟩
  · intro rec r' h
    unfold oneOfCall at h
    by_cases hcond : ws ≠ [] ∧ (force = true ∨ r < p)
    · rw [if_pos hcond] at h
      exact getD_child_shape children hch (pyChoice ws u) true rec r' h
    · rw [if_neg hcond] at h
      cases h
      exact ⟨rfl, rfl⟩
  · intro rec r' h
    unfold someOfCall at h
    by_cases hcond : ws ≠ [] ∧ (force = true ∨ r < p)
    · rw [if_pos hcond] at h
      exact foldIdx_shape children hch idxs rec r' h
    · rw [if_neg hcond] at h
      cases h
      exact ⟨rfl, rfl⟩
  · intro rec r' h
    unfold oneOrOtherCall at h
    by_cases hcond : r < p
    · rw [if_pos hcond] at h
      exact headD_child_shape children hch true rec r' h
    · rw [if_neg hcond] at h
      exact getLastD_child_shape children hch true rec r' h
  · intro rec r' h
    unfold sequentialCall at h
    by_cases hcond : r < p
    · rw [if_pos hcond] at h
      exact runChildren_shape children hch rec r' h
    · rw [if_neg hcond] at h
      cases h
      exact ⟨rfl, rfl⟩
  · intro rec r' h
    cases h
    exact ⟨rfl, rfl⟩

theorem operations_preserve_shape_witness :
    (ShapePres (fun d : DataRecord ℚ => some d) ∧
      (∀ c ∈ ([] : List (Child ℚ)), ∀ b, ShapePres (c b))) ∧
    (ShapePres (fun rec => (baseTransformCall 0 false
        (fun d : DataRecord ℚ => some d) (fun _ => 0) 0 false rec).1) ∧
      ShapePres (baseSelectCall 0 (fun _ => some [])
        ([] : List (Child ℚ)) false 0) ∧
      ShapePres (composeCall [] 0 true) ∧
      ShapePres (oneOfCall ([] : List (Child ℚ)) [] 0 false 0 0) ∧
      ShapePres (someOfCall ([] : List (Child ℚ)) [] 0 false 0 []) ∧
      ShapePres (oneOrOtherCall ([] : List (Child ℚ)) 0 0) ∧
      ShapePres (sequentialCall ([] : List (Child ℚ)) 0 false 0) ∧
      ShapePres (noOpCall : DataRecord ℚ → Option (DataRecord ℚ))) := by
  have hid : ShapePres (fun d : DataRecord ℚ => some d) := by
    intro r r' h
    cases h
    exact ⟨rfl, rfl⟩
  have hnil : ∀ c ∈ ([] : List (Child ℚ)), ∀ b, ShapePres (c b) := by
    intro c hc
    cases hc
  exact ⟨⟨hid, hnil⟩,
    operations_preserve_shape _ hid [] hnil (fun _ => some []) [] [] 0 0 0
      false false (fun _ => 0) 0 true⟩

end Skel
